import Mathlib

/-!
Verification of the playground-elements sources:
  * `playground-typescript-worker` (compileProject, WorkerLanguageServiceHost,
    makeLspDiagnostic, isTsOrJsFile, makeBareSpecifierTransformVisitor),
  * `playground-file-editor` (PlaygroundFileEditor, mimeTypeToTypeEnum),
  * `vanilla-tab.ts` (VanillaTab, VanillaTabBar).

The sources are TypeScript; we shallowly embed them here.  Calls into the
wrapped third-party compiler library (language service, module resolver,
types fetcher, URL construction) are modelled as oracle parameters: the
repository's own code only orchestrates them.
-/

namespace Playground

/-! ## JavaScript `Map` model

A JS `Map` with string keys: an ordered association list with no duplicate
keys.  `Map.prototype.get` finds the entry, `Map.prototype.set` updates the
existing entry in place (preserving insertion order) or appends a new one. -/

def mapGet {α : Type} : List (String × α) → String → Option α
  | [], _ => none
  | p :: rest, k => if p.1 == k then some p.2 else mapGet rest k

def mapSet {α : Type} : List (String × α) → String → α → List (String × α)
  | [], k, v => [(k, v)]
  | p :: rest, k, v => if p.1 == k then (k, v) :: rest else p :: mapSet rest k v

/-- `Map.prototype.set` called for each pair in turn. -/
def mapSetAll {α : Type} (m : List (String × α)) (kvs : List (String × α)) :
    List (String × α) :=
  kvs.foldl (fun acc kv => mapSet acc kv.1 kv.2) m

@[simp] theorem mapSetAll_nil {α : Type} (m : List (String × α)) :
    mapSetAll m [] = m := rfl

@[simp] theorem mapSetAll_cons {α : Type} (m : List (String × α))
    (kv : String × α) (kvs : List (String × α)) :
    mapSetAll m (kv :: kvs) = mapSetAll (mapSet m kv.1 kv.2) kvs := rfl

@[simp] theorem mapGet_nil {α : Type} (k : String) :
    mapGet ([] : List (String × α)) k = none := rfl

@[simp] theorem mapGet_cons {α : Type} (p : String × α) (rest : List (String × α))
    (k : String) :
    mapGet (p :: rest) k = if p.1 == k then some p.2 else mapGet rest k := rfl

theorem mapGet_mapSet_self {α : Type} (m : List (String × α)) (k : String) (v : α) :
    mapGet (mapSet m k v) k = some v := by
  induction m with
  | nil => simp [mapSet]
  | cons p rest ih =>
    by_cases h : p.1 == k
    · simp [mapSet, h]
    · simp [mapSet, h, ih]

theorem mapGet_mapSet_other {α : Type} (m : List (String × α)) (k k' : String)
    (v : α) (h : k' ≠ k) : mapGet (mapSet m k v) k' = mapGet m k' := by
  induction m with
  | nil => simp [mapSet, mapGet, beq_iff_eq, Ne.symm h]
  | cons p rest ih =>
    by_cases hp : p.1 == k
    · have hpk : p.1 = k := by simpa [beq_iff_eq] using hp
      simp [mapSet, hp, mapGet, hpk, beq_iff_eq, Ne.symm h]
    · simp [mapSet, hp, mapGet, ih]

theorem mapGet_mapSetAll_notMem {α : Type} (kvs : List (String × α))
    (m : List (String × α)) (k : String) (h : k ∉ kvs.map Prod.fst) :
    mapGet (mapSetAll m kvs) k = mapGet m k := by
  induction kvs generalizing m with
  | nil => rfl
  | cons kv rest ih =>
    simp only [List.map_cons, List.mem_cons, not_or] at h
    simpa [mapSetAll, List.foldl_cons] using
      (ih (mapSet m kv.1 kv.2) h.2).trans (mapGet_mapSet_other m kv.1 k kv.2 h.1)

theorem mapGet_mapSetAll_mem {α : Type} (kvs : List (String × α))
    (m : List (String × α)) (k : String) (v : α)
    (hnd : (kvs.map Prod.fst).Nodup) (hmem : (k, v) ∈ kvs) :
    mapGet (mapSetAll m kvs) k = some v := by
  induction kvs generalizing m with
  | nil => cases hmem
  | cons kv rest ih =>
    simp only [List.map_cons, List.nodup_cons] at hnd
    rcases List.mem_cons.mp hmem with hm | hm
    · have : k ∉ rest.map Prod.fst := by rw [show k = kv.1 from congrArg Prod.fst hm]; exact hnd.1
      have hv : kv = (k, v) := hm.symm
      calc mapGet (mapSetAll (mapSet m kv.1 kv.2) rest) k
          = mapGet (mapSet m kv.1 kv.2) k := mapGet_mapSetAll_notMem rest _ k this
        _ = some v := by rw [hv]; exact mapGet_mapSet_self m k v
    · exact ih (mapSet m kv.1 kv.2) hnd.2 hm

theorem mapGet_mapSetAll_isSome_general {α : Type} (kvs : List (String × α))
    (k : String) (m : List (String × α)) :
    (mapGet (mapSetAll m kvs) k).isSome = true ↔
      k ∈ kvs.map Prod.fst ∨ (mapGet m k).isSome = true := by
  induction kvs generalizing m with
  | nil => simp [mapSetAll]
  | cons kv rest ih =>
    rw [mapSetAll_cons]
    by_cases hk : k = kv.1
    · by_cases hrest : k ∈ rest.map Prod.fst
      · rw [ih (mapSet m kv.1 kv.2)]
        simp [hrest]
      · have hnot := mapGet_mapSetAll_notMem rest (mapSet m kv.1 kv.2) k hrest
        rw [hnot, hk, mapGet_mapSet_self]
        simp [hk]
    · have hother := mapGet_mapSet_other m kv.1 k kv.2 hk
      rw [ih (mapSet m kv.1 kv.2), hother]
      simp [hk]

theorem mapGet_mapSetAll_isSome_iff {α : Type} (kvs : List (String × α)) (k : String) :
    (mapGet (mapSetAll [] kvs) k).isSome = true ↔ k ∈ kvs.map Prod.fst := by
  simpa using mapGet_mapSetAll_isSome_general kvs k []

/-! ## String helpers

JS string primitives used by the sources, modelled over the character list of
a Lean `String` so that they compute by kernel reduction. -/

/-- `String.prototype.endsWith(suffix)`. -/
def strEndsWith (s suffix : String) : Bool :=
  suffix.data.isSuffixOf s.data

/-- `s.substring(0, s.indexOf(sep))` when `sep` occurs in `s`, else `s` itself:
the characters of `s` strictly before the first occurrence of `c`. -/
def takeBeforeChar (c : Char) : List Char → List Char
  | [] => []
  | x :: rest => if x = c then [] else x :: takeBeforeChar c rest

/-! ## `mimeTypeToTypeEnum` (playground-file-editor module scope)

```ts
const mimeTypeToTypeEnum = (mimeType?: string) => {
  if (mimeType === undefined) { return; }
  const encodingSepIndex = mimeType.indexOf(';');
  if (encodingSepIndex !== -1) {
    mimeType = mimeType.substring(0, encodingSepIndex);
  }
  switch (mimeType) { ... }
  return undefined;
};
```
The `indexOf`/`substring` pair truncates at the first `';'`, which is
`takeBeforeChar ';'` (a no-op when there is no `';'`). -/

def mimeTypeToTypeEnum (mimeType : Option String) : Option String :=
  match mimeType with
  | none => none
  | some mt =>
    let base : List Char := takeBeforeChar ';' mt.data
    -- TypeScript: this is the mime-type returned by servers for .ts files.
    if base = "video/mp2t".data then some "ts"
    else if base = "text/javascript".data ∨ base = "application/javascript".data then
      some "js"
    else if base = "application/json".data then some "json"
    else if base = "text/html".data then some "html"
    else if base = "text/css".data then some "css"
    else none

theorem takeBeforeChar_idem (c : Char) (l : List Char) :
    takeBeforeChar c (takeBeforeChar c l) = takeBeforeChar c l := by
  induction l with
  | nil => rfl
  | cons x rest ih =>
    by_cases hx : x = c
    · simp [takeBeforeChar, hx]
    · simp [takeBeforeChar, hx, ih]

/-- C10: `mimeTypeToTypeEnum` first strips any `';'`-delimited parameter suffix
from its input, then returns `'ts'` for `'video/mp2t'`, `'js'` for
`'text/javascript'` or `'application/javascript'`, `'json'` for
`'application/json'`, `'html'` for `'text/html'`, `'css'` for `'text/css'`,
and `undefined` for an `undefined` input or any other mime type. -/
theorem mimeTypeToTypeEnum_spec :
    mimeTypeToTypeEnum none = none ∧
    ∀ mt : String,
      mimeTypeToTypeEnum (some mt)
        = mimeTypeToTypeEnum (some (String.mk (takeBeforeChar ';' mt.data))) ∧
      (takeBeforeChar ';' mt.data = "video/mp2t".data →
        mimeTypeToTypeEnum (some mt) = some "ts") ∧
      (takeBeforeChar ';' mt.data = "text/javascript".data ∨
          takeBeforeChar ';' mt.data = "application/javascript".data →
        mimeTypeToTypeEnum (some mt) = some "js") ∧
      (takeBeforeChar ';' mt.data = "application/json".data →
        mimeTypeToTypeEnum (some mt) = some "json") ∧
      (takeBeforeChar ';' mt.data = "text/html".data →
        mimeTypeToTypeEnum (some mt) = some "html") ∧
      (takeBeforeChar ';' mt.data = "text/css".data →
        mimeTypeToTypeEnum (some mt) = some "css") ∧
      (takeBeforeChar ';' mt.data ∉
          ["video/mp2t".data, "text/javascript".data, "application/javascript".data,
            "application/json".data, "text/html".data, "text/css".data] →
        mimeTypeToTypeEnum (some mt) = none) := by
  refine ⟨rfl, fun mt => ?_⟩
  have hstrip : takeBeforeChar ';' (String.mk (takeBeforeChar ';' mt.data)).data
      = takeBeforeChar ';' mt.data := takeBeforeChar_idem ';' mt.data
  refine ⟨?_, ?_, ?_, ?_, ?_, ?_, ?_⟩
  · simp only [mimeTypeToTypeEnum, hstrip]
  · intro h; simp only [mimeTypeToTypeEnum]; rw [h]; decide
  · intro h
    rcases h with h | h <;> (simp only [mimeTypeToTypeEnum]; rw [h]; decide)
  · intro h; simp only [mimeTypeToTypeEnum]; rw [h]; decide
  · intro h; simp only [mimeTypeToTypeEnum]; rw [h]; decide
  · intro h; simp only [mimeTypeToTypeEnum]; rw [h]; decide
  · intro h
    simp only [List.mem_cons, not_or] at h
    obtain ⟨h1, h2, h3, h4, h5, h6, -⟩ := h
    simp [mimeTypeToTypeEnum, h1, h2, h3, h4, h5, h6]

/-- Concrete instances discharging each hypothesis of
`mimeTypeToTypeEnum_spec`. -/
theorem mimeTypeToTypeEnum_spec_witness :
    mimeTypeToTypeEnum (some "video/mp2t") = some "ts" ∧
    mimeTypeToTypeEnum (some "text/javascript") = some "js" ∧
    mimeTypeToTypeEnum (some "application/javascript") = some "js" ∧
    mimeTypeToTypeEnum (some "application/json") = some "json" ∧
    mimeTypeToTypeEnum (some "text/html;charset=utf-8") = some "html" ∧
    mimeTypeToTypeEnum (some "text/css") = some "css" ∧
    mimeTypeToTypeEnum (some "image/png") = none :=
  ⟨((mimeTypeToTypeEnum_spec.2 "video/mp2t").2.1) (by decide),
    ((mimeTypeToTypeEnum_spec.2 "text/javascript").2.2.1) (Or.inl (by decide)),
    ((mimeTypeToTypeEnum_spec.2 "application/javascript").2.2.1) (Or.inr (by decide)),
    ((mimeTypeToTypeEnum_spec.2 "application/json").2.2.2.1) (by decide),
    ((mimeTypeToTypeEnum_spec.2 "text/html;charset=utf-8").2.2.2.2.1) (by decide),
    ((mimeTypeToTypeEnum_spec.2 "text/css").2.2.2.2.2.1) (by decide),
    ((mimeTypeToTypeEnum_spec.2 "image/png").2.2.2.2.2.2) (by decide)⟩

/-! ## Worker file records (playground-typescript-worker)

```ts
type ResolvedFileRecord = {status: 'resolved'; originalUrl?: string; content: string};
type RedirectedFileRecord = {status: 'redirected'; redirectedUrl: string};
type PendingFileRecord = {status: 'pending'};
type FileRecord = PendingFileRecord | ResolvedFileRecord | RedirectedFileRecord;
``` -/

/-- `const isTsOrJsFile = (file) => file.endsWith('.ts') || file.endsWith('.js');` -/
def isTsOrJsFile (file : String) : Bool :=
  strEndsWith file ".ts" || strEndsWith file ".js"

inductive FileRecord : Type where
  | pending : FileRecord
  | resolved (originalUrl : Option String) (content : String) : FileRecord
  | redirected (redirectedUrl : String) : FileRecord
  deriving DecidableEq

/-- `file.status === 'resolved'`. -/
def FileRecord.statusIsResolved : FileRecord → Bool
  | .resolved _ _ => true
  | _ => false

/-- A `ts.IScriptSnapshot`; `ts.ScriptSnapshot.fromString` wraps the text. -/
structure ScriptSnapshot : Type where
  text : String
  deriving DecidableEq

def ScriptSnapshot.fromString (s : String) : ScriptSnapshot := ⟨s⟩

/-! ## `WorkerLanguageServiceHost`

The host holds `files : Map<string, FileRecord>`; its query methods:

```ts
fileExists(fileName) { const file = this.files.get(fileName);
  return file !== undefined && file.status === 'resolved'; }
readFile(fileName) { const file = this.files.get(fileName);
  if (file !== undefined && file.status === 'resolved') { return file.content; }
  return undefined; }
getScriptSnapshot(fileName) { if (!this.fileExists(fileName)) { return undefined; }
  return ts.ScriptSnapshot.fromString(this.readFile(fileName)!); }
``` -/

namespace WorkerLanguageServiceHost

def fileExists (files : List (String × FileRecord)) (fileName : String) : Bool :=
  match mapGet files fileName with
  | some file => file.statusIsResolved
  | none => false

def readFile (files : List (String × FileRecord)) (fileName : String) : Option String :=
  match mapGet files fileName with
  | some (.resolved _ content) => some content
  | _ => none

def getScriptSnapshot (files : List (String × FileRecord)) (fileName : String) :
    Option ScriptSnapshot :=
  if fileExists files fileName then
    -- the source applies `!` to `readFile`, which cannot be undefined here
    match readFile files fileName with
    | some content => some (ScriptSnapshot.fromString content)
    | none => none
  else none

/-- `getScriptFileNames()`: the keys of the file map that are .ts/.js files. -/
def getScriptFileNames (files : List (String × FileRecord)) : List String :=
  (files.map Prod.fst).filter (fun name => isTsOrJsFile name)

end WorkerLanguageServiceHost

/-- C4: for every file name and state of the in-memory file map,
`fileExists` returns true iff the map holds an entry with status `'resolved'`
for that name; `readFile` returns exactly that entry's content when
`fileExists` is true and `undefined` otherwise; `getScriptSnapshot` returns a
snapshot of that same content when `fileExists` is true and `undefined`
otherwise, so `'pending'` and `'redirected'` entries behave as nonexistent
files. -/
theorem workerLanguageServiceHost_virtual_fs
    (files : List (String × FileRecord)) (fileName : String) :
    (WorkerLanguageServiceHost.fileExists files fileName = true ↔
      ∃ u c, mapGet files fileName = some (.resolved u c)) ∧
    (∀ u c, mapGet files fileName = some (.resolved u c) →
      WorkerLanguageServiceHost.fileExists files fileName = true ∧
      WorkerLanguageServiceHost.readFile files fileName = some c ∧
      WorkerLanguageServiceHost.getScriptSnapshot files fileName
        = some (ScriptSnapshot.fromString c)) ∧
    (WorkerLanguageServiceHost.fileExists files fileName = false →
      WorkerLanguageServiceHost.readFile files fileName = none ∧
      WorkerLanguageServiceHost.getScriptSnapshot files fileName = none) ∧
    (∀ r, mapGet files fileName = some r → r.statusIsResolved = false →
      WorkerLanguageServiceHost.fileExists files fileName = false) := by
  cases hm : mapGet files fileName with
  | none =>
    simp [WorkerLanguageServiceHost.fileExists, WorkerLanguageServiceHost.readFile,
      WorkerLanguageServiceHost.getScriptSnapshot, hm]
  | some file =>
    cases file with
    | pending =>
      simp [WorkerLanguageServiceHost.fileExists, WorkerLanguageServiceHost.readFile,
        WorkerLanguageServiceHost.getScriptSnapshot, hm, FileRecord.statusIsResolved]
    | resolved u c =>
      simp [WorkerLanguageServiceHost.fileExists, WorkerLanguageServiceHost.readFile,
        WorkerLanguageServiceHost.getScriptSnapshot, hm, FileRecord.statusIsResolved]
    | redirected target =>
      simp [WorkerLanguageServiceHost.fileExists, WorkerLanguageServiceHost.readFile,
        WorkerLanguageServiceHost.getScriptSnapshot, hm, FileRecord.statusIsResolved]

/-- Concrete instance of `workerLanguageServiceHost_virtual_fs` on a file map
with one resolved and one pending entry. -/
theorem workerLanguageServiceHost_virtual_fs_witness :
    WorkerLanguageServiceHost.readFile
        [("a.ts", .resolved none "let x;"), ("b.ts", .pending)] "a.ts"
      = some "let x;" ∧
    WorkerLanguageServiceHost.getScriptSnapshot
        [("a.ts", .resolved none "let x;"), ("b.ts", .pending)] "a.ts"
      = some (ScriptSnapshot.fromString "let x;") ∧
    WorkerLanguageServiceHost.readFile
        [("a.ts", .resolved none "let x;"), ("b.ts", .pending)] "b.ts"
      = none ∧
    WorkerLanguageServiceHost.getScriptSnapshot
        [("a.ts", .resolved none "let x;"), ("b.ts", .pending)] "b.ts"
      = none := by
  have h1 := (workerLanguageServiceHost_virtual_fs
    [("a.ts", .resolved none "let x;"), ("b.ts", .pending)] "a.ts").2.1
    none "let x;" (by decide)
  have h2 := (workerLanguageServiceHost_virtual_fs
    [("a.ts", .resolved none "let x;"), ("b.ts", .pending)] "b.ts").2.2.1
    (by decide)
  exact ⟨h1.2.1, h1.2.2, h2.1, h2.2⟩

/-! ## Diagnostics: TypeScript → LSP conversion

`ts.DiagnosticCategory` is the enum `{Warning = 0, Error = 1, Suggestion = 2,
Message = 3}`.  A `ts.Diagnostic` carries an optional source file, optional
start offset and length, a message, and a category; the file's
`getLineAndCharacterOfPosition` method (a compiler-library service) is
modelled as a function field. -/

inductive DiagnosticCategory : Type where
  | warning
  | error
  | suggestion
  | message
  deriving DecidableEq

/-- An `lsp.Position`-style line/character pair. -/
structure LineAndCharacter : Type where
  line : Nat
  character : Nat
  deriving DecidableEq

/-- The part of `ts.SourceFile` that `makeLspDiagnostic` uses. -/
structure TsSourceFile : Type where
  getLineAndCharacterOfPosition : Nat → LineAndCharacter

structure TsDiagnostic : Type where
  code : Nat
  source : Option String
  /-- `messageText` after `ts.flattenDiagnosticMessageText` (the library
  function is the identity on plain string messages). -/
  messageText : String
  category : DiagnosticCategory
  file : Option TsSourceFile
  start : Option Nat
  length : Option Nat

structure LspRange : Type where
  start : LineAndCharacter
  «end» : LineAndCharacter
  deriving DecidableEq

structure LspDiagnostic : Type where
  code : Nat
  source : String
  message : String
  severity : Nat
  range : LspRange
  deriving DecidableEq

/-- ```ts
const diagnosticCategoryMapping = {
  [ts.DiagnosticCategory.Error]: 1, [ts.DiagnosticCategory.Warning]: 2,
  [ts.DiagnosticCategory.Message]: 3, [ts.DiagnosticCategory.Suggestion]: 4};
``` -/
def diagnosticCategoryMapping : DiagnosticCategory → Nat
  | .error => 1
  | .warning => 2
  | .message => 3
  | .suggestion => 4

/-- `makeLspDiagnostic`, converting a TypeScript diagnostic to LSP format. -/
def makeLspDiagnostic (tsDiagnostic : TsDiagnostic) : LspDiagnostic :=
  { code := tsDiagnostic.code
    source := tsDiagnostic.source.getD "typescript"
    message := tsDiagnostic.messageText
    severity := diagnosticCategoryMapping tsDiagnostic.category
    range :=
      { start :=
          match tsDiagnostic.file, tsDiagnostic.start with
          | some f, some s => f.getLineAndCharacterOfPosition s
          | _, _ => { character := 0, line := 0 }
        «end» :=
          match tsDiagnostic.file, tsDiagnostic.start, tsDiagnostic.length with
          | some f, some s, some l => f.getLineAndCharacterOfPosition (s + l)
          | _, _, _ => { character := 0, line := 0 } } }

/-- C9: `makeLspDiagnostic` is total and maps every TypeScript diagnostic to
an LSP diagnostic with severity Error→1, Warning→2, Message→3, Suggestion→4;
its source is `'typescript'` when the input has no source; and its range
falls back to line 0, character 0 for the start when the diagnostic's file or
start offset is undefined, and for the end when additionally its length is
undefined. -/
theorem makeLspDiagnostic_spec (d : TsDiagnostic) :
    (d.category = .error → (makeLspDiagnostic d).severity = 1) ∧
    (d.category = .warning → (makeLspDiagnostic d).severity = 2) ∧
    (d.category = .message → (makeLspDiagnostic d).severity = 3) ∧
    (d.category = .suggestion → (makeLspDiagnostic d).severity = 4) ∧
    (d.source = none → (makeLspDiagnostic d).source = "typescript") ∧
    (∀ s, d.source = some s → (makeLspDiagnostic d).source = s) ∧
    (d.file = none ∨ d.start = none →
      (makeLspDiagnostic d).range.start = { line := 0, character := 0 } ∧
      (makeLspDiagnostic d).range.«end» = { line := 0, character := 0 }) ∧
    (∀ f s, d.file = some f → d.start = some s →
      (makeLspDiagnostic d).range.start = f.getLineAndCharacterOfPosition s ∧
      (d.length = none →
        (makeLspDiagnostic d).range.«end» = { line := 0, character := 0 }) ∧
      (∀ l, d.length = some l →
        (makeLspDiagnostic d).range.«end»
          = f.getLineAndCharacterOfPosition (s + l))) := by
  refine ⟨?_, ?_, ?_, ?_, ?_, ?_, ?_, ?_⟩
  · intro h; simp [makeLspDiagnostic, diagnosticCategoryMapping, h]
  · intro h; simp [makeLspDiagnostic, diagnosticCategoryMapping, h]
  · intro h; simp [makeLspDiagnostic, diagnosticCategoryMapping, h]
  · intro h; simp [makeLspDiagnostic, diagnosticCategoryMapping, h]
  · intro h; simp [makeLspDiagnostic, h]
  · intro s h; simp [makeLspDiagnostic, h]
  · rintro (h | h) <;> cases hs : d.start <;> cases hf : d.file <;>
      simp_all [makeLspDiagnostic]
  · intro f s hf hs
    refine ⟨by simp [makeLspDiagnostic, hf, hs], ?_, ?_⟩
    · intro h; simp [makeLspDiagnostic, hf, hs, h]
    · intro l h; simp [makeLspDiagnostic, hf, hs, h]

/-- Concrete instances discharging the hypotheses of `makeLspDiagnostic_spec`:
one bare diagnostic with no source/file/start/length, and one with a file
whose position lookup is constant. -/
theorem makeLspDiagnostic_spec_witness :
    (makeLspDiagnostic
      { code := 5, source := none, messageText := "m", category := .error,
        file := none, start := none, length := none }).severity = 1 ∧
    (makeLspDiagnostic
      { code := 5, source := none, messageText := "m", category := .error,
        file := none, start := none, length := none }).source = "typescript" ∧
    (makeLspDiagnostic
      { code := 5, source := none, messageText := "m", category := .error,
        file := none, start := none, length := none }).range.start
      = { line := 0, character := 0 } ∧
    (makeLspDiagnostic
      { code := 7, source := some "eslint", messageText := "m",
        category := .warning,
        file := some ⟨fun n => { line := n, character := n + 1 }⟩,
        start := some 3, length := some 4 }).severity = 2 ∧
    (makeLspDiagnostic
      { code := 7, source := some "eslint", messageText := "m",
        category := .warning,
        file := some ⟨fun n => { line := n, character := n + 1 }⟩,
        start := some 3, length := some 4 }).source = "eslint" ∧
    (makeLspDiagnostic
      { code := 7, source := some "eslint", messageText := "m",
        category := .warning,
        file := some ⟨fun n => { line := n, character := n + 1 }⟩,
        start := some 3, length := some 4 }).range.«end»
      = { line := 7, character := 8 } := by
  have h1 := makeLspDiagnostic_spec
    { code := 5, source := none, messageText := "m", category := .error,
      file := none, start := none, length := none }
  have h2 := makeLspDiagnostic_spec
    { code := 7, source := some "eslint", messageText := "m",
      category := .warning,
      file := some ⟨fun n => { line := n, character := n + 1 }⟩,
      start := some 3, length := some 4 }
  refine ⟨h1.1 rfl, h1.2.2.2.2.1 rfl, (h1.2.2.2.2.2.2.1 (Or.inl rfl)).1,
    h2.2.1 rfl, h2.2.2.2.2.2.1 "eslint" rfl, ?_⟩
  have := (h2.2.2.2.2.2.2.2 ⟨fun n => { line := n, character := n + 1 }⟩ 3
    rfl rfl).2.2 4 rfl
  simpa using this

/-! ## `makeBareSpecifierTransformVisitor`

The visitor walks a TypeScript AST: on an `ImportDeclaration` it resolves the
module specifier with the `ModuleResolver` (an oracle here) and, when the
resolution type is `'bare'`, returns a clone of the node whose specifier is
the resolved URL; every other node (and a non-bare import) is passed to
`ts.visitEachChild`, which maps the visitor over the node's children.  Import
declarations never occur below another import declaration, so an import's own
children are left unchanged by the recursive visit. -/

/-- The `{type, url}` record returned by `ModuleResolver.resolve`. -/
structure ResolvedSpecifier : Type where
  type : String
  url : String

mutual
inductive TsNode : Type where
  | importDeclaration (specifier : String) : TsNode
  | other (children : TsNodeList) : TsNode
inductive TsNodeList : Type where
  | nil : TsNodeList
  | cons (head : TsNode) (tail : TsNodeList) : TsNodeList
end

mutual
def visitNode (resolve : String → ResolvedSpecifier) : TsNode → TsNode
  | .importDeclaration specifier =>
    let r := resolve specifier
    if r.type = "bare" then .importDeclaration r.url
    else .importDeclaration specifier
  | .other children => .other (visitList resolve children)
def visitList (resolve : String → ResolvedSpecifier) : TsNodeList → TsNodeList
  | .nil => .nil
  | .cons n rest => .cons (visitNode resolve n) (visitList resolve rest)
end

/-- The visitor produced by `makeBareSpecifierTransformVisitor`, applied
through `ts.visitNode` to a whole tree. -/
def makeBareSpecifierTransformVisitor (resolve : String → ResolvedSpecifier) :
    TsNode → TsNode :=
  visitNode resolve

mutual
def importSpecifiers : TsNode → List String
  | .importDeclaration specifier => [specifier]
  | .other children => importSpecifiersList children
def importSpecifiersList : TsNodeList → List String
  | .nil => []
  | .cons n rest => importSpecifiers n ++ importSpecifiersList rest
end

/-- How one specifier is rewritten: bare specifiers become the resolver's
URL, all others are untouched. -/
def rewriteSpecifier (resolve : String → ResolvedSpecifier) (s : String) : String :=
  if (resolve s).type = "bare" then (resolve s).url else s

mutual
theorem visitNode_importSpecifiers (resolve : String → ResolvedSpecifier) :
    ∀ n : TsNode, importSpecifiers (visitNode resolve n)
      = (importSpecifiers n).map (rewriteSpecifier resolve)
  | .importDeclaration s => by
    by_cases h : (resolve s).type = "bare" <;>
      simp [visitNode, importSpecifiers, rewriteSpecifier, h]
  | .other children => by
    simp [visitNode, importSpecifiers,
      visitList_importSpecifiers resolve children]
theorem visitList_importSpecifiers (resolve : String → ResolvedSpecifier) :
    ∀ l : TsNodeList, importSpecifiersList (visitList resolve l)
      = (importSpecifiersList l).map (rewriteSpecifier resolve)
  | .nil => rfl
  | .cons n rest => by
    simp [visitList, importSpecifiersList,
      visitNode_importSpecifiers resolve n,
      visitList_importSpecifiers resolve rest]
end

/-- C3: during emit, for every import declaration in a compiled file, if the
module resolver classifies its specifier as type `'bare'` then the emitted
output replaces that specifier with the CDN URL returned by the resolver;
every other import specifier is unchanged.  (Stated over the list of import
specifiers, in order, of a whole tree.) -/
theorem bareSpecifierTransform_rewrites_imports
    (resolve : String → ResolvedSpecifier) (tree : TsNode) :
    importSpecifiers (makeBareSpecifierTransformVisitor resolve tree)
      = (importSpecifiers tree).map
          (fun s => if (resolve s).type = "bare" then (resolve s).url else s) :=
  visitNode_importSpecifiers resolve tree

/-! ## `compileProject`

```ts
async compileProject(files, importMap, slowDiagnosticsCallback) {
  const moduleResolver = new ModuleResolver(importMap);
  const loadedFiles = new Map();
  const typesFetcher = new TypesFetcher(moduleResolver);
  const inputFiles = files.filter((file) => isTsOrJsFile(file.name))
    .map((file) => ({file, url: new URL(file.name, self.origin).href}));
  for (const {file, url} of inputFiles) {
    loadedFiles.set(url, {status: 'resolved', content: file.content});
    typesFetcher.addBareModuleTypings(file.content);
  }
  ...fast compile, then an async task for the slow semantic pass...
  return {files: emittedFiles, diagnostics: fastDiagnostics};
}
```

The language service, module resolver, types fetcher and URL constructor are
the wrapped libraries; they enter the model as an oracle record.  The
semantic-diagnostics oracle takes the file map as an argument because the
language service reads the (mutated) `loadedFiles` through the host; the
syntactic pass and emit run against the map fixed at program creation, so
those oracles are functions of the file's URL alone. -/

structure SampleFile : Type where
  name : String
  content : String
  deriving DecidableEq

structure CompileResult : Type where
  files : List (String × String)
  diagnostics : List (String × List LspDiagnostic)
  deriving DecidableEq

/-- Oracle for the compiler-library services used by `compileProject`. -/
structure CompilerOracle : Type where
  /-- `new URL(name, self.origin).href` -/
  urlOf : String → String
  /-- `languageService.getSyntacticDiagnostics(url)` over the project files -/
  getSyntacticDiagnostics : String → List TsDiagnostic
  /-- the `(fileName, data)` pairs written by `program.emit(sourceFile, ...)`
  for the source file at a URL, after the bare-specifier transform -/
  emitOutputs : String → List (String × String)
  /-- `languageService.getSemanticDiagnostics(url)`, a function of the file
  map visible through the host when the call is made -/
  getSemanticDiagnostics :
    List (String × FileRecord) → String → List TsDiagnostic
  /-- the `Map<string, string>` that `typesFetcher.getFiles()` resolves to -/
  fetchedTypes : List (String × String)
  /-- `new URL('node_modules/' + specifier, self.origin).href` -/
  nodeModulesUrlOf : String → String

/-- One element of `inputFiles`: a project file paired with its URL. -/
structure InputFile : Type where
  file : SampleFile
  url : String

def inputFilesOf (o : CompilerOracle) (files : List SampleFile) : List InputFile :=
  (files.filter (fun file => isTsOrJsFile file.name)).map
    (fun file => { file := file, url := o.urlOf file.name })

/-- `loadedFiles` after the first loop: each input file resolved at its URL. -/
def initialLoadedFiles (o : CompilerOracle) (files : List SampleFile) :
    List (String × FileRecord) :=
  mapSetAll [] ((inputFilesOf o files).map
    (fun inf => (inf.url, FileRecord.resolved none inf.file.content)))

/-- `fastDiagnostics`: per input file, its syntactic diagnostics converted to
LSP format, keyed by the file's original name. -/
def fastDiagnostics (o : CompilerOracle) (files : List SampleFile) :
    List (String × List LspDiagnostic) :=
  mapSetAll [] ((inputFilesOf o files).map
    (fun inf =>
      (inf.file.name,
        (o.getSyntacticDiagnostics inf.url).map makeLspDiagnostic)))

/-- `emittedFiles`: the same loop calls `program.emit` for each input file,
accumulating every written output into one map. -/
def emittedFiles (o : CompilerOracle) (files : List SampleFile) :
    List (String × String) :=
  (inputFilesOf o files).foldl
    (fun acc inf => mapSetAll acc (o.emitOutputs inf.url)) []

/-- `loadedFiles` after the async task added every fetched typings file under
`node_modules/`. -/
def loadedFilesAfterTypes (o : CompilerOracle) (files : List SampleFile) :
    List (String × FileRecord) :=
  mapSetAll (initialLoadedFiles o files)
    (o.fetchedTypes.map
      (fun st => (o.nodeModulesUrlOf st.1, FileRecord.resolved none st.2)))

/-- `slowDiagnostics`: per input file, its semantic diagnostics (computed
against the file map that includes the fetched typings) in LSP format. -/
def slowDiagnostics (o : CompilerOracle) (files : List SampleFile) :
    List (String × List LspDiagnostic) :=
  mapSetAll [] ((inputFilesOf o files).map
    (fun inf =>
      (inf.file.name,
        (o.getSemanticDiagnostics (loadedFilesAfterTypes o files) inf.url).map
          makeLspDiagnostic)))

/-- The observable effects of one `compileProject` call: the resolved value of
the returned promise, the `loadedFiles` state at resolution time, the
`loadedFiles` state after the detached async task ran, and the argument of
each `slowDiagnosticsCallback` invocation that task makes. -/
structure CompileProjectRun : Type where
  result : CompileResult
  loadedFiles : List (String × FileRecord)
  loadedFilesAfter : List (String × FileRecord)
  callbackCalls : List (List (String × List LspDiagnostic))

def compileProject (o : CompilerOracle) (files : List SampleFile) :
    CompileProjectRun :=
  { result := { files := emittedFiles o files
                diagnostics := fastDiagnostics o files }
    loadedFiles := initialLoadedFiles o files
    loadedFilesAfter := loadedFilesAfterTypes o files
    callbackCalls := [slowDiagnostics o files] }

theorem mapSetAll_append {α : Type} (m : List (String × α))
    (l1 l2 : List (String × α)) :
    mapSetAll m (l1 ++ l2) = mapSetAll (mapSetAll m l1) l2 := by
  simp [mapSetAll, List.foldl_append]

theorem foldl_mapSetAll_eq_join {α : Type} (L : List (List (String × α)))
    (acc : List (String × α)) :
    L.foldl (fun acc l => mapSetAll acc l) acc = mapSetAll acc L.flatten := by
  induction L generalizing acc with
  | nil => simp [mapSetAll]
  | cons l rest ih => simp [List.flatten_cons, mapSetAll_append, ih]

theorem emittedFiles_eq_join (o : CompilerOracle) (files : List SampleFile) :
    emittedFiles o files
      = mapSetAll []
          (((inputFilesOf o files).map (fun inf => o.emitOutputs inf.url)).flatten) := by
  rw [emittedFiles, ← foldl_mapSetAll_eq_join, List.foldl_map]

theorem inputFilesOf_names (o : CompilerOracle) (files : List SampleFile) :
    (inputFilesOf o files).map (fun inf => inf.file.name)
      = (files.filter (fun f => isTsOrJsFile f.name)).map SampleFile.name := by
  simp [inputFilesOf, List.map_map]


theorem mem_inputFilesOf (o : CompilerOracle) (files : List SampleFile)
    (f : SampleFile) (hf : f ∈ files) (hts : isTsOrJsFile f.name = true) :
    ({ file := f, url := o.urlOf f.name } : InputFile) ∈ inputFilesOf o files := by
  exact List.mem_map.mpr ⟨f, List.mem_filter.mpr ⟨hf, hts⟩, rfl⟩

theorem fastDiagnostics_get (o : CompilerOracle) (files : List SampleFile)
    (hnames : ((files.filter (fun f => isTsOrJsFile f.name)).map SampleFile.name).Nodup)
    (f : SampleFile) (hf : f ∈ files) (hts : isTsOrJsFile f.name = true) :
    mapGet (fastDiagnostics o files) f.name
      = some ((o.getSyntacticDiagnostics (o.urlOf f.name)).map makeLspDiagnostic) := by
  refine mapGet_mapSetAll_mem _ [] _ _ ?_ ?_
  · have : ((inputFilesOf o files).map
        (fun inf => (inf.file.name,
          (o.getSyntacticDiagnostics inf.url).map makeLspDiagnostic))).map Prod.fst
        = (inputFilesOf o files).map (fun inf => inf.file.name) := by
      simp [List.map_map]
    rw [this, inputFilesOf_names]
    exact hnames
  · exact List.mem_map.mpr ⟨{ file := f, url := o.urlOf f.name },
      mem_inputFilesOf o files f hf hts, rfl⟩

theorem slowDiagnostics_get (o : CompilerOracle) (files : List SampleFile)
    (hnames : ((files.filter (fun f => isTsOrJsFile f.name)).map SampleFile.name).Nodup)
    (f : SampleFile) (hf : f ∈ files) (hts : isTsOrJsFile f.name = true) :
    mapGet (slowDiagnostics o files) f.name
      = some ((o.getSemanticDiagnostics (loadedFilesAfterTypes o files)
          (o.urlOf f.name)).map makeLspDiagnostic) := by
  refine mapGet_mapSetAll_mem _ [] _ _ ?_ ?_
  · have : ((inputFilesOf o files).map
        (fun inf => (inf.file.name,
          (o.getSemanticDiagnostics (loadedFilesAfterTypes o files) inf.url).map
            makeLspDiagnostic))).map Prod.fst
        = (inputFilesOf o files).map (fun inf => inf.file.name) := by
      simp [List.map_map]
    rw [this, inputFilesOf_names]
    exact hnames
  · exact List.mem_map.mpr ⟨{ file := f, url := o.urlOf f.name },
      mem_inputFilesOf o files f hf hts, rfl⟩

theorem emittedFiles_get (o : CompilerOracle) (files : List SampleFile)
    (houts : (((files.filter (fun f => isTsOrJsFile f.name)).map
        (fun f => (o.emitOutputs (o.urlOf f.name)).map Prod.fst)).flatten).Nodup)
    (f : SampleFile) (hf : f ∈ files) (hts : isTsOrJsFile f.name = true)
    (outName data : String) (hout : (outName, data) ∈ o.emitOutputs (o.urlOf f.name)) :
    mapGet (emittedFiles o files) outName = some data := by
  rw [emittedFiles_eq_join]
  refine mapGet_mapSetAll_mem _ [] _ _ ?_ ?_
  · have hmj : (((inputFilesOf o files).map
        (fun inf => o.emitOutputs inf.url)).flatten).map Prod.fst
        = ((inputFilesOf o files).map
            (fun inf => (o.emitOutputs inf.url).map Prod.fst)).flatten := by
      rw [List.map_flatten, List.map_map]
      rfl
    rw [hmj]
    have hcomp : (inputFilesOf o files).map
        (fun inf => (o.emitOutputs inf.url).map Prod.fst)
        = (files.filter (fun f => isTsOrJsFile f.name)).map
            (fun f => (o.emitOutputs (o.urlOf f.name)).map Prod.fst) := by
      simp [inputFilesOf, List.map_map]
    rw [hcomp]
    exact houts
  · exact List.mem_flatten.mpr ⟨o.emitOutputs (o.urlOf f.name),
      List.mem_map.mpr ⟨{ file := f, url := o.urlOf f.name },
        mem_inputFilesOf o files f hf hts, rfl⟩, hout⟩

/-- C1: every call to `compileProject` returns a `CompileResult` whose
`diagnostics` map has, for each input file named `*.ts` or `*.js`, an entry
keyed by the file's original name holding that file's syntactic diagnostics
converted to LSP format, and whose `files` map holds the outputs the compiler
emitted for those files; this fast-pass result is independent of the fetched
type declarations (it is produced before any of them are available). -/
theorem compileProject_fast_pass (o : CompilerOracle) (files : List SampleFile)
    (hnames : ((files.filter (fun f => isTsOrJsFile f.name)).map SampleFile.name).Nodup)
    (houts : (((files.filter (fun f => isTsOrJsFile f.name)).map
        (fun f => (o.emitOutputs (o.urlOf f.name)).map Prod.fst)).flatten).Nodup) :
    (∀ f ∈ files, isTsOrJsFile f.name = true →
      mapGet (compileProject o files).result.diagnostics f.name
        = some ((o.getSyntacticDiagnostics (o.urlOf f.name)).map makeLspDiagnostic) ∧
      ∀ outName data, (outName, data) ∈ o.emitOutputs (o.urlOf f.name) →
        mapGet (compileProject o files).result.files outName = some data) ∧
    ∀ fetched semDiag,
      (compileProject
          { o with fetchedTypes := fetched, getSemanticDiagnostics := semDiag }
          files).result
        = (compileProject o files).result := by
  refine ⟨fun f hf hts => ?_, fun fetched semDiag => rfl⟩
  exact ⟨fastDiagnostics_get o files hnames f hf hts,
    fun outName data hout => emittedFiles_get o files houts f hf hts outName data hout⟩

/-- Concrete run of `compileProject_fast_pass`: two project files, one of
which is not a TypeScript/JavaScript file, with one emitted output. -/
theorem compileProject_fast_pass_witness :
    mapGet (compileProject
        { urlOf := fun name => String.append "https://example.com/" name
          getSyntacticDiagnostics := fun _ => []
          emitOutputs := fun url =>
            if url = "https://example.com/a.ts" then [("https://example.com/a.js", "var x;")] else []
          getSemanticDiagnostics := fun _ _ => []
          fetchedTypes := []
          nodeModulesUrlOf := fun s => String.append "https://example.com/node_modules/" s }
        [{ name := "a.ts", content := "let x;" }, { name := "b.txt", content := "hi" }]).result.diagnostics
      "a.ts" = some [] ∧
    mapGet (compileProject
        { urlOf := fun name => String.append "https://example.com/" name
          getSyntacticDiagnostics := fun _ => []
          emitOutputs := fun url =>
            if url = "https://example.com/a.ts" then [("https://example.com/a.js", "var x;")] else []
          getSemanticDiagnostics := fun _ _ => []
          fetchedTypes := []
          nodeModulesUrlOf := fun s => String.append "https://example.com/node_modules/" s }
        [{ name := "a.ts", content := "let x;" }, { name := "b.txt", content := "hi" }]).result.files
      "https://example.com/a.js" = some "var x;" := by
  have h := compileProject_fast_pass
    { urlOf := fun name => String.append "https://example.com/" name
      getSyntacticDiagnostics := fun _ => []
      emitOutputs := fun url =>
        if url = "https://example.com/a.ts" then [("https://example.com/a.js", "var x;")] else []
      getSemanticDiagnostics := fun _ _ => []
      fetchedTypes := []
      nodeModulesUrlOf := fun s => String.append "https://example.com/node_modules/" s }
    [{ name := "a.ts", content := "let x;" }, { name := "b.txt", content := "hi" }]
    (by decide) (by decide)
  have hf := h.1 { name := "a.ts", content := "let x;" } (by decide) (by decide)
  exact ⟨hf.1, hf.2 "https://example.com/a.js" "var x;" (by decide)⟩

/-- C2: per `compileProject` call the `slowDiagnosticsCallback` is invoked at
most once; every fetched typings file has been added to the in-memory file
map (under its `node_modules/` URL) before the semantic diagnostics passed to
the callback are computed, and the callback receives semantic diagnostics for
every `.ts`/`.js` input file; the promise returned by `compileProject`
resolves to a result that is independent of the type fetches and of the
callback. -/
theorem compileProject_slow_pass (o : CompilerOracle) (files : List SampleFile)
    (hnames : ((files.filter (fun f => isTsOrJsFile f.name)).map SampleFile.name).Nodup)
    (hfetched : (o.fetchedTypes.map (fun st => o.nodeModulesUrlOf st.1)).Nodup) :
    (compileProject o files).callbackCalls.length ≤ 1 ∧
    (∀ specifier content, (specifier, content) ∈ o.fetchedTypes →
      mapGet (compileProject o files).loadedFilesAfter
          (o.nodeModulesUrlOf specifier)
        = some (FileRecord.resolved none content)) ∧
    (∀ call ∈ (compileProject o files).callbackCalls,
      ∀ f ∈ files, isTsOrJsFile f.name = true →
        mapGet call f.name
          = some ((o.getSemanticDiagnostics
              (compileProject o files).loadedFilesAfter (o.urlOf f.name)).map
                makeLspDiagnostic)) ∧
    ∀ fetched semDiag,
      (compileProject
          { o with fetchedTypes := fetched, getSemanticDiagnostics := semDiag }
          files).result
        = (compileProject o files).result := by
  refine ⟨by simp [compileProject], fun specifier content hmem => ?_,
    fun call hcall f hf hts => ?_, fun fetched semDiag => rfl⟩
  · refine mapGet_mapSetAll_mem _ _ _ _ ?_ ?_
    · have : (o.fetchedTypes.map
          (fun st => (o.nodeModulesUrlOf st.1, FileRecord.resolved none st.2))).map
            Prod.fst
          = o.fetchedTypes.map (fun st => o.nodeModulesUrlOf st.1) := by
        simp [List.map_map]
      rw [this]
      exact hfetched
    · exact List.mem_map.mpr ⟨(specifier, content), hmem, rfl⟩
  · have hc : call = slowDiagnostics o files := by
      simpa [compileProject] using hcall
    rw [hc]
    exact slowDiagnostics_get o files hnames f hf hts

/-- Concrete run of `compileProject_slow_pass`: one input file and one fetched
typings file; the callback argument carries the semantic diagnostics computed
after the typings were added. -/
theorem compileProject_slow_pass_witness :
    mapGet (compileProject
        { urlOf := fun name => String.append "https://example.com/" name
          getSyntacticDiagnostics := fun _ => []
          emitOutputs := fun _ => []
          getSemanticDiagnostics := fun _ _ => []
          fetchedTypes := [("lit/index.d.ts", "export {};")]
          nodeModulesUrlOf := fun s => String.append "https://example.com/node_modules/" s }
        [{ name := "a.ts", content := "let x;" }]).loadedFilesAfter
      "https://example.com/node_modules/lit/index.d.ts"
      = some (FileRecord.resolved none "export {};") ∧
    mapGet (slowDiagnostics
        { urlOf := fun name => String.append "https://example.com/" name
          getSyntacticDiagnostics := fun _ => []
          emitOutputs := fun _ => []
          getSemanticDiagnostics := fun _ _ => []
          fetchedTypes := [("lit/index.d.ts", "export {};")]
          nodeModulesUrlOf := fun s => String.append "https://example.com/node_modules/" s }
        [{ name := "a.ts", content := "let x;" }])
      "a.ts" = some [] := by
  have h := compileProject_slow_pass
    { urlOf := fun name => String.append "https://example.com/" name
      getSyntacticDiagnostics := fun _ => []
      emitOutputs := fun _ => []
      getSemanticDiagnostics := fun _ _ => []
      fetchedTypes := [("lit/index.d.ts", "export {};")]
      nodeModulesUrlOf := fun s => String.append "https://example.com/node_modules/" s }
    [{ name := "a.ts", content := "let x;" }] (by decide) (by decide)
  refine ⟨?_, ?_⟩
  · exact h.2.1 "lit/index.d.ts" "export {};" (by decide)
  · have := h.2.2.1 (slowDiagnostics
      { urlOf := fun name => String.append "https://example.com/" name
        getSyntacticDiagnostics := fun _ => []
        emitOutputs := fun _ => []
        getSemanticDiagnostics := fun _ _ => []
        fetchedTypes := [("lit/index.d.ts", "export {};")]
        nodeModulesUrlOf := fun s => String.append "https://example.com/node_modules/" s }
      [{ name := "a.ts", content := "let x;" }])
      (by simp [compileProject]) { name := "a.ts", content := "let x;" }
      (by decide) (by decide)
    simpa using this

/-- C8: `compileProject` ignores every input file whose name does not end in
`.ts` or `.js`: the in-memory file map holds exactly the URLs of the
`.ts`/`.js` inputs, the emitted-files map holds only outputs the compiler
emitted for `.ts`/`.js` inputs, and both the fast (syntactic) and the slow
(semantic) diagnostics maps have exactly the names of the `.ts`/`.js` inputs
as their key sets, so other file names key neither map. -/
theorem compileProject_ignores_other_files (o : CompilerOracle)
    (files : List SampleFile) :
    (∀ k, (mapGet (compileProject o files).loadedFiles k).isSome = true ↔
      ∃ f, f ∈ files ∧ isTsOrJsFile f.name = true ∧ k = o.urlOf f.name) ∧
    (∀ n, (mapGet (compileProject o files).result.diagnostics n).isSome = true ↔
      ∃ f, f ∈ files ∧ isTsOrJsFile f.name = true ∧ n = f.name) ∧
    (∀ call ∈ (compileProject o files).callbackCalls, ∀ n,
      (mapGet call n).isSome = true ↔
        ∃ f, f ∈ files ∧ isTsOrJsFile f.name = true ∧ n = f.name) ∧
    (∀ k, (mapGet (compileProject o files).result.files k).isSome = true ↔
      ∃ f, f ∈ files ∧ isTsOrJsFile f.name = true ∧
        k ∈ (o.emitOutputs (o.urlOf f.name)).map Prod.fst) ∧
    (∀ f ∈ files, isTsOrJsFile f.name = false →
      mapGet (compileProject o files).result.diagnostics f.name = none ∧
      ∀ call ∈ (compileProject o files).callbackCalls,
        mapGet call f.name = none) := by
  have hfilterNames : ∀ n : String,
      n ∈ (files.filter (fun f => isTsOrJsFile f.name)).map SampleFile.name ↔
        ∃ f, f ∈ files ∧ isTsOrJsFile f.name = true ∧ n = f.name := by
    intro n
    constructor
    · intro h
      obtain ⟨f, hf, heq⟩ := List.mem_map.mp h
      exact ⟨f, (List.mem_filter.mp hf).1,
        by simpa using (List.mem_filter.mp hf).2, heq.symm⟩
    · rintro ⟨f, hf, hts, rfl⟩
      exact List.mem_map.mpr ⟨f, List.mem_filter.mpr ⟨hf, hts⟩, rfl⟩
  have hdiag : ∀ n,
      (mapGet (compileProject o files).result.diagnostics n).isSome = true ↔
        ∃ f, f ∈ files ∧ isTsOrJsFile f.name = true ∧ n = f.name := by
    intro n
    rw [show (compileProject o files).result.diagnostics = fastDiagnostics o files
      from rfl, fastDiagnostics, mapGet_mapSetAll_isSome_iff]
    have hkeys : ((inputFilesOf o files).map
        (fun inf => (inf.file.name,
          (o.getSyntacticDiagnostics inf.url).map makeLspDiagnostic))).map Prod.fst
        = (inputFilesOf o files).map (fun inf => inf.file.name) := by
      simp [List.map_map]
    rw [hkeys, inputFilesOf_names]
    exact hfilterNames n
  have hslow : ∀ n,
      (mapGet (slowDiagnostics o files) n).isSome = true ↔
        ∃ f, f ∈ files ∧ isTsOrJsFile f.name = true ∧ n = f.name := by
    intro n
    rw [slowDiagnostics, mapGet_mapSetAll_isSome_iff]
    have hkeys : ((inputFilesOf o files).map
        (fun inf => (inf.file.name,
          (o.getSemanticDiagnostics (loadedFilesAfterTypes o files) inf.url).map
            makeLspDiagnostic))).map Prod.fst
        = (inputFilesOf o files).map (fun inf => inf.file.name) := by
      simp [List.map_map]
    rw [hkeys, inputFilesOf_names]
    exact hfilterNames n
  refine ⟨?_, hdiag, ?_, ?_, ?_⟩
  · intro k
    rw [show (compileProject o files).loadedFiles = initialLoadedFiles o files
      from rfl, initialLoadedFiles, mapGet_mapSetAll_isSome_iff]
    have hkeys : ((inputFilesOf o files).map
        (fun inf => (inf.url, FileRecord.resolved none inf.file.content))).map
          Prod.fst
        = (inputFilesOf o files).map (fun inf => inf.url) := by
      simp [List.map_map]
    rw [hkeys]
    constructor
    · intro h
      obtain ⟨inf, hinf, heq⟩ := List.mem_map.mp h
      obtain ⟨f, hfmem, rfl⟩ := List.mem_map.mp hinf
      exact ⟨f, (List.mem_filter.mp hfmem).1,
        by simpa using (List.mem_filter.mp hfmem).2, heq.symm⟩
    · rintro ⟨f, hf, hts, rfl⟩
      exact List.mem_map.mpr ⟨{ file := f, url := o.urlOf f.name },
        mem_inputFilesOf o files f hf hts, rfl⟩
  · intro call hcall n
    have hc : call = slowDiagnostics o files := by
      simpa [compileProject] using hcall
    rw [hc]
    exact hslow n
  · intro k
    rw [show (compileProject o files).result.files = emittedFiles o files
      from rfl, emittedFiles_eq_join, mapGet_mapSetAll_isSome_iff]
    constructor
    · intro hk
      rw [List.map_flatten] at hk
      obtain ⟨l, hl, hkl⟩ := List.mem_flatten.mp hk
      rw [List.map_map] at hl
      obtain ⟨inf, hinf, rfl⟩ := List.mem_map.mp hl
      obtain ⟨f, hfmem, rfl⟩ := List.mem_map.mp hinf
      exact ⟨f, (List.mem_filter.mp hfmem).1,
        by simpa using (List.mem_filter.mp hfmem).2, by simpa using hkl⟩
    · rintro ⟨f, hf, hts, hk⟩
      rw [List.map_flatten]
      refine List.mem_flatten.mpr ⟨(o.emitOutputs (o.urlOf f.name)).map Prod.fst, ?_, hk⟩
      rw [List.map_map]
      exact List.mem_map.mpr ⟨{ file := f, url := o.urlOf f.name },
        mem_inputFilesOf o files f hf hts, rfl⟩
  · intro f hf hne
    have hnone : ∀ m : List (String × List LspDiagnostic),
        ((mapGet m f.name).isSome = true ↔
          ∃ f', f' ∈ files ∧ isTsOrJsFile f'.name = true ∧ f.name = f'.name) →
        mapGet m f.name = none := by
      intro m hiff
      cases hg : mapGet m f.name with
      | none => rfl
      | some v =>
        have : (mapGet m f.name).isSome = true := by rw [hg]; rfl
        obtain ⟨f', _, hts', heq⟩ := hiff.mp this
        rw [heq] at hne
        rw [hts'] at hne
        cases hne
    refine ⟨hnone _ (hdiag f.name), fun call hcall => ?_⟩
    have hc : call = slowDiagnostics o files := by
      simpa [compileProject] using hcall
    rw [hc]
    exact hnone _ (hslow f.name)

/-- Concrete run of `compileProject_ignores_other_files`: the `.txt` input
keys neither diagnostics map. -/
theorem compileProject_ignores_other_files_witness :
    mapGet (compileProject
        { urlOf := fun name => String.append "https://example.com/" name
          getSyntacticDiagnostics := fun _ => []
          emitOutputs := fun _ => []
          getSemanticDiagnostics := fun _ _ => []
          fetchedTypes := []
          nodeModulesUrlOf := fun s => String.append "https://example.com/node_modules/" s }
        [{ name := "a.ts", content := "let x;" },
          { name := "b.txt", content := "hi" }]).result.diagnostics
      "b.txt" = none ∧
    mapGet (slowDiagnostics
        { urlOf := fun name => String.append "https://example.com/" name
          getSyntacticDiagnostics := fun _ => []
          emitOutputs := fun _ => []
          getSemanticDiagnostics := fun _ _ => []
          fetchedTypes := []
          nodeModulesUrlOf := fun s => String.append "https://example.com/node_modules/" s }
        [{ name := "a.ts", content := "let x;" },
          { name := "b.txt", content := "hi" }])
      "b.txt" = none := by
  have h := (compileProject_ignores_other_files
    { urlOf := fun name => String.append "https://example.com/" name
      getSyntacticDiagnostics := fun _ => []
      emitOutputs := fun _ => []
      getSemanticDiagnostics := fun _ _ => []
      fetchedTypes := []
      nodeModulesUrlOf := fun s => String.append "https://example.com/node_modules/" s }
    [{ name := "a.ts", content := "let x;" },
      { name := "b.txt", content := "hi" }]).2.2.2.2
    { name := "b.txt", content := "hi" } (by decide) (by decide)
  exact ⟨h.1, h.2 _ (by simp [compileProject])⟩

/-! ## `vanilla-tab.ts`: `VanillaTab` and `VanillaTabBar`

A `VanillaTab` carries a reflected boolean `active` property and a numeric
`idx` (its 0-indexed position within the bar).  The bar holds the assigned
tabs and `_active`, a reference to the active tab; we model the reference as
the tab's position in the bar's `tabs` list. -/

structure VanillaTab : Type where
  active : Bool
  idx : Nat
  deriving DecidableEq

structure VanillaTabBar : Type where
  tabs : List VanillaTab
  /-- `_active`, as an index into `tabs` (`none` = `undefined`). -/
  activeIdx : Option Nat
  deriving DecidableEq

/-- Mutate the tab object at one position (a JS property assignment on the
referenced element). -/
def modifyTab : List VanillaTab → Nat → (VanillaTab → VanillaTab) → List VanillaTab
  | [], _, _ => []
  | t :: rest, 0, f => f t :: rest
  | t :: rest, n + 1, f => t :: modifyTab rest n f

theorem modifyTab_length (l : List VanillaTab) (n : Nat) (f : VanillaTab → VanillaTab) :
    (modifyTab l n f).length = l.length := by
  induction l generalizing n with
  | nil => rfl
  | cons t rest ih =>
    cases n with
    | zero => rfl
    | succ m => simp [modifyTab, ih]

theorem modifyTab_get_self (l : List VanillaTab) (n : Nat) (f : VanillaTab → VanillaTab) :
    (modifyTab l n f)[n]? = (l[n]?).map f := by
  induction l generalizing n with
  | nil => simp [modifyTab]
  | cons t rest ih =>
    cases n with
    | zero => simp [modifyTab]
    | succ m => simpa [modifyTab] using ih m

theorem modifyTab_get_other (l : List VanillaTab) (n m : Nat)
    (f : VanillaTab → VanillaTab) (h : m ≠ n) :
    (modifyTab l n f)[m]? = l[m]? := by
  induction l generalizing n m with
  | nil => simp [modifyTab]
  | cons t rest ih =>
    cases n with
    | zero =>
      cases m with
      | zero => exact absurd rfl h
      | succ m' => simp [modifyTab]
    | succ n' =>
      cases m with
      | zero => simp [modifyTab]
      | succ m' => simpa [modifyTab] using ih n' m' (fun he => h (by rw [he]))

/-- The `active` setter of `VanillaTabBar` (get/set pair on the class):

```ts
set active(tab) {
  if (this._active === tab) { return; }
  if (this._active !== undefined) { this._active.active = false; }
  if (tab !== undefined) { tab.active = true; }
  this._active = tab;
}
``` -/
def setActive (bar : VanillaTabBar) (tab : Option Nat) : VanillaTabBar :=
  if bar.activeIdx = tab then bar
  else
    let tabs1 :=
      match bar.activeIdx with
      | some j => modifyTab bar.tabs j (fun t => { t with active := false })
      | none => bar.tabs
    let tabs2 :=
      match tab with
      | some j => modifyTab tabs1 j (fun t => { t with active := true })
      | none => tabs1
    { tabs := tabs2, activeIdx := tab }

/-- The loop body of `_onSlotchange`:

```ts
this._active = undefined;
for (let i = 0; i < this._tabs.length; i++) {
  const tab = this._tabs[i];
  tab.idx = i;
  if (this._active !== undefined) { tab.active = false; }
  else if (tab.active === true) { this._active = tab; }
}
```
`i` is the running index, the accumulator is the current `this._active`. -/
def onSlotchangeLoop : Nat → Option Nat → List VanillaTab →
    List VanillaTab × Option Nat
  | _, acc, [] => ([], acc)
  | i, acc, t :: rest =>
    let t1 := { t with idx := i }
    match acc with
    | some a =>
      let t2 := { t1 with active := false }
      let (res, acc2) := onSlotchangeLoop (i + 1) (some a) rest
      (t2 :: res, acc2)
    | none =>
      if t1.active then
        let (res, acc2) := onSlotchangeLoop (i + 1) (some i) rest
        (t1 :: res, acc2)
      else
        let (res, acc2) := onSlotchangeLoop (i + 1) none rest
        (t1 :: res, acc2)

/-- `_onSlotchange`: the bar adopts the slot's assigned elements and re-runs
the index/active scan.  (The `tabchange` event dispatched when the active tab
disappears is outside this claim.) -/
def onSlotchange (_bar : VanillaTabBar) (assigned : List VanillaTab) : VanillaTabBar :=
  let (tabs, acc) := onSlotchangeLoop 0 none assigned
  { tabs := tabs, activeIdx := acc }

/-- `_onKeydown`; the second component records which tab `tab.focus()` was
called on (`tab.active = true` additionally raises a `tabchange` event that
the bar's own listener handles).

```ts
const oldIdx = this._active?.idx ?? 0;
let newIdx = oldIdx;
if (event.key === 'ArrowLeft') { if (oldIdx > 0) { newIdx--; } }
else if (event.key === 'ArrowRight') {
  if (oldIdx < this._tabs.length - 1) { newIdx++; } }
if (newIdx !== oldIdx) {
  const tab = this._tabs[newIdx]; tab.active = true; tab.focus(); }
```
(`length - 1` is `-1` in JS for an empty bar, so `oldIdx < length - 1` is
false then; truncated subtraction on `Nat` gives the same comparisons.) -/
def onKeydown (bar : VanillaTabBar) (key : String) :
    VanillaTabBar × Option Nat :=
  let oldIdx : Nat :=
    match bar.activeIdx.bind (fun j => bar.tabs[j]?) with
    | some t => t.idx
    | none => 0
  let newIdx : Nat :=
    if key = "ArrowLeft" then
      if oldIdx > 0 then oldIdx - 1 else oldIdx
    else if key = "ArrowRight" then
      if oldIdx < bar.tabs.length - 1 then oldIdx + 1 else oldIdx
    else oldIdx
  if newIdx ≠ oldIdx then
    ({ bar with
        tabs := modifyTab bar.tabs newIdx (fun t => { t with active := true }) },
      some newIdx)
  else (bar, none)

theorem findIdx?_lower_bound {α : Type} (p : α → Bool) (l : List α) :
    ∀ i m, List.findIdx? p l i = some m → i ≤ m := by
  induction l with
  | nil => intro i m h; simp [List.findIdx?_nil] at h
  | cons x rest ih =>
    intro i m h
    rw [List.findIdx?_cons] at h
    by_cases hx : p x = true
    · rw [if_pos hx] at h
      exact (Option.some_injective _ h).le
    · rw [if_neg hx] at h
      exact Nat.le_of_succ_le (ih (i + 1) m h)

theorem onSlotchangeLoop_some_acc (rest : List VanillaTab) (i a : Nat) :
    (onSlotchangeLoop i (some a) rest).2 = some a := by
  induction rest generalizing i with
  | nil => rfl
  | cons t rest ih => simpa [onSlotchangeLoop] using ih (i + 1)

theorem onSlotchangeLoop_some_get (rest : List VanillaTab) (i a : Nat) :
    ∀ j, (onSlotchangeLoop i (some a) rest).1[j]?
      = (rest[j]?).map (fun _ => ({ active := false, idx := i + j } : VanillaTab)) := by
  induction rest generalizing i with
  | nil => intro j; simp [onSlotchangeLoop]
  | cons t rest ih =>
    intro j
    cases j with
    | zero => simp [onSlotchangeLoop]
    | succ m =>
      have := ih (i + 1) m
      simp only [onSlotchangeLoop] at *
      simpa [Nat.add_assoc, Nat.add_comm 1 m] using this

theorem onSlotchangeLoop_none_acc (l : List VanillaTab) (i : Nat) :
    (onSlotchangeLoop i none l).2 = List.findIdx? (fun t => t.active) l i := by
  induction l generalizing i with
  | nil => simp [onSlotchangeLoop, List.findIdx?_nil]
  | cons t rest ih =>
    rw [List.findIdx?_cons]
    by_cases ht : t.active = true
    · simpa [onSlotchangeLoop, ht] using onSlotchangeLoop_some_acc rest (i + 1) i
    · simpa [onSlotchangeLoop, ht] using ih (i + 1)

theorem onSlotchangeLoop_none_get (l : List VanillaTab) (i : Nat) :
    ∀ j, (onSlotchangeLoop i none l).1[j]?
      = (l[j]?).map (fun _ =>
          ({ active := decide (List.findIdx? (fun t => t.active) l i = some (i + j)),
             idx := i + j } : VanillaTab)) := by
  induction l generalizing i with
  | nil => intro j; simp [onSlotchangeLoop]
  | cons t rest ih =>
    intro j
    rw [List.findIdx?_cons]
    by_cases ht : t.active = true
    · cases j with
      | zero => simp [onSlotchangeLoop, ht]
      | succ m =>
        have hget := onSlotchangeLoop_some_get rest (i + 1) i m
        have harith : i + 1 + m = i + (m + 1) := by omega
        have hne : ¬ (i = i + (m + 1)) := by omega
        simp only [onSlotchangeLoop, ht, if_pos]
        simp [hget, harith, hne, ht]
    · cases j with
      | zero =>
        simp [onSlotchangeLoop, ht]
        intro x _
        omega
      | succ m =>
        have := ih (i + 1) m
        have harith : i + 1 + m = i + (m + 1) := by omega
        simp only [onSlotchangeLoop, ht, if_neg]
        simp only [Bool.false_eq_true, not_false_iff]
        simpa [harith] using this

/-- C5: the `VanillaTabBar` maintains at most one active tab: assigning the
bar's `active` property a new tab deactivates the previously active tab and
activates the new one (and assigning the already-active tab again does
nothing, touching no tab), and after a slot change every tab's `idx` equals
its 0-based position and only the first tab whose `active` flag is true
remains active, all later tabs being forced inactive. -/
theorem vanillaTabBar_active_management :
    (∀ bar : VanillaTabBar, setActive bar bar.activeIdx = bar) ∧
    (∀ (bar : VanillaTabBar) (j k : Nat), bar.activeIdx = some k → j ≠ k →
      (setActive bar (some j)).activeIdx = some j ∧
      ((setActive bar (some j)).tabs[k]?).map (fun t => t.active)
        = (bar.tabs[k]?).map (fun _ => false) ∧
      ((setActive bar (some j)).tabs[j]?).map (fun t => t.active)
        = (bar.tabs[j]?).map (fun _ => true) ∧
      ∀ i, i ≠ j → i ≠ k → (setActive bar (some j)).tabs[i]? = bar.tabs[i]?) ∧
    (∀ (bar : VanillaTabBar) (assigned : List VanillaTab),
      (onSlotchange bar assigned).activeIdx
        = assigned.findIdx? (fun t => t.active) ∧
      ∀ j, (onSlotchange bar assigned).tabs[j]?
        = (assigned[j]?).map (fun _ =>
            ({ active := decide (assigned.findIdx? (fun t => t.active) = some j),
               idx := j } : VanillaTab))) := by
  refine ⟨fun bar => by simp [setActive], ?_, ?_⟩
  · intro bar j k hk hjk
    have hcond : ¬ (bar.activeIdx = some j) := by
      rw [hk]
      intro he
      exact hjk (Option.some_injective _ he).symm
    have hset : setActive bar (some j)
        = { tabs := modifyTab
              (modifyTab bar.tabs k (fun t => { t with active := false })) j
              (fun t => { t with active := true })
            activeIdx := some j } := by
      simp only [setActive, hk]
      rw [if_neg (show ¬ ((some k : Option Nat) = some j) by
        simpa using Ne.symm hjk)]
    refine ⟨by rw [hset], ?_, ?_, ?_⟩
    · rw [hset]
      show ((modifyTab _ j _)[k]?).map _ = _
      rw [modifyTab_get_other _ j k _ (Ne.symm hjk), modifyTab_get_self]
      cases bar.tabs[k]? <;> simp
    · rw [hset]
      show ((modifyTab _ j _)[j]?).map _ = _
      rw [modifyTab_get_self, modifyTab_get_other _ k j _ hjk]
      cases bar.tabs[j]? <;> simp
    · intro i hij hik
      rw [hset]
      show (modifyTab _ j _)[i]? = _
      rw [modifyTab_get_other _ j i _ hij, modifyTab_get_other _ k i _ hik]
  · intro bar assigned
    have hacc : (onSlotchange bar assigned).activeIdx
        = (onSlotchangeLoop 0 none assigned).2 := rfl
    have htabs : (onSlotchange bar assigned).tabs
        = (onSlotchangeLoop 0 none assigned).1 := rfl
    refine ⟨?_, ?_⟩
    · rw [hacc]
      exact onSlotchangeLoop_none_acc assigned 0
    · intro j
      rw [htabs]
      simpa using onSlotchangeLoop_none_get assigned 0 j

/-- Concrete instance of `vanillaTabBar_active_management`: activating the
second tab of a two-tab bar, and a slot change with actives at positions 1
and 2. -/
theorem vanillaTabBar_active_management_witness :
    (setActive
        { tabs := [{ active := true, idx := 0 }, { active := false, idx := 1 }]
          activeIdx := some 0 } (some 1)).activeIdx = some 1 ∧
    ((setActive
        { tabs := [{ active := true, idx := 0 }, { active := false, idx := 1 }]
          activeIdx := some 0 } (some 1)).tabs[0]?).map (fun t => t.active)
      = some false ∧
    ((setActive
        { tabs := [{ active := true, idx := 0 }, { active := false, idx := 1 }]
          activeIdx := some 0 } (some 1)).tabs[1]?).map (fun t => t.active)
      = some true ∧
    (onSlotchange { tabs := [], activeIdx := none }
        [{ active := false, idx := 7 }, { active := true, idx := 9 },
          { active := true, idx := 3 }]).activeIdx = some 1 ∧
    (onSlotchange { tabs := [], activeIdx := none }
        [{ active := false, idx := 7 }, { active := true, idx := 9 },
          { active := true, idx := 3 }]).tabs[2]?
      = some { active := false, idx := 2 } := by
  have h2 := vanillaTabBar_active_management.2.1
    { tabs := [{ active := true, idx := 0 }, { active := false, idx := 1 }]
      activeIdx := some 0 } 1 0 rfl (by decide)
  have h3 := vanillaTabBar_active_management.2.2
    { tabs := [], activeIdx := none }
    [{ active := false, idx := 7 }, { active := true, idx := 9 },
      { active := true, idx := 3 }]
  refine ⟨h2.1, ?_, ?_, ?_, ?_⟩
  · rw [h2.2.1]; decide
  · rw [h2.2.2.1]; decide
  · rw [h3.1]; decide
  · rw [h3.2 2]; decide

/-- C6: for every keydown handled by the tab bar, with `oldIdx` the active
tab's index (0 when no tab is active) and `n` the number of tabs:
`'ArrowLeft'` activates and focuses the tab at `oldIdx - 1` when `oldIdx > 0`
and changes nothing otherwise; `'ArrowRight'` activates and focuses the tab
at `oldIdx + 1` when `oldIdx < n - 1` and changes nothing otherwise; any
other key changes nothing.  The hypothesis states that the active tab's
`idx` field is its position, which `_onSlotchange` maintains. -/
theorem vanillaTabBar_onKeydown_navigation (bar : VanillaTabBar) (key : String)
    (hcons : ∀ j, bar.activeIdx = some j →
      (bar.tabs[j]?).map (fun t => t.idx) = some j) :
    (key = "ArrowLeft" → 0 < bar.activeIdx.getD 0 →
      onKeydown bar key
        = ({ bar with
              tabs := modifyTab bar.tabs (bar.activeIdx.getD 0 - 1)
                (fun t => { t with active := true }) },
            some (bar.activeIdx.getD 0 - 1))) ∧
    (key = "ArrowLeft" → ¬ 0 < bar.activeIdx.getD 0 →
      onKeydown bar key = (bar, none)) ∧
    (key = "ArrowRight" → bar.activeIdx.getD 0 < bar.tabs.length - 1 →
      onKeydown bar key
        = ({ bar with
              tabs := modifyTab bar.tabs (bar.activeIdx.getD 0 + 1)
                (fun t => { t with active := true }) },
            some (bar.activeIdx.getD 0 + 1))) ∧
    (key = "ArrowRight" → ¬ bar.activeIdx.getD 0 < bar.tabs.length - 1 →
      onKeydown bar key = (bar, none)) ∧
    (key ≠ "ArrowLeft" → key ≠ "ArrowRight" →
      onKeydown bar key = (bar, none)) := by
  have hold : (match bar.activeIdx.bind (fun j => bar.tabs[j]?) with
      | some t => t.idx
      | none => 0) = bar.activeIdx.getD 0 := by
    cases ha : bar.activeIdx with
    | none => rfl
    | some j =>
      have hj := hcons j ha
      cases hg : bar.tabs[j]? with
      | none => rw [hg] at hj; cases hj
      | some t =>
        rw [hg] at hj
        have : t.idx = j := by simpa using hj
        simp [Option.bind, hg, this]
  refine ⟨?_, ?_, ?_, ?_, ?_⟩
  · intro hkey hpos
    subst hkey
    have hne : bar.activeIdx.getD 0 - 1 ≠ bar.activeIdx.getD 0 := by omega
    simp only [onKeydown, hold]
    simp [hpos, hne]
  · intro hkey hpos
    subst hkey
    simp only [onKeydown, hold]
    simp [hpos]
  · intro hkey hlt
    subst hkey
    have hne : bar.activeIdx.getD 0 + 1 ≠ bar.activeIdx.getD 0 := by omega
    simp only [onKeydown, hold]
    simp [hlt, hne]
  · intro hkey hlt
    subst hkey
    simp only [onKeydown, hold]
    simp [hlt]
  · intro hk1 hk2
    simp only [onKeydown, hold]
    simp [hk1, hk2]

/-- Concrete instance of `vanillaTabBar_onKeydown_navigation`: a three-tab
bar with the middle tab active moves left on ArrowLeft; with the last tab
active, ArrowRight and unrelated keys change nothing. -/
theorem vanillaTabBar_onKeydown_navigation_witness :
    (onKeydown
        { tabs := [{ active := false, idx := 0 }, { active := true, idx := 1 },
            { active := false, idx := 2 }]
          activeIdx := some 1 } "ArrowLeft").2 = some 0 ∧
    ((onKeydown
        { tabs := [{ active := false, idx := 0 }, { active := true, idx := 1 },
            { active := false, idx := 2 }]
          activeIdx := some 1 } "ArrowLeft").1.tabs[0]?).map (fun t => t.active)
      = some true ∧
    onKeydown
        { tabs := [{ active := false, idx := 0 }, { active := true, idx := 1 }]
          activeIdx := some 1 } "ArrowRight"
      = ({ tabs := [{ active := false, idx := 0 },
              { active := true, idx := 1 }], activeIdx := some 1 }, none) ∧
    onKeydown
        { tabs := [{ active := false, idx := 0 }, { active := true, idx := 1 }]
          activeIdx := some 1 } "Enter"
      = ({ tabs := [{ active := false, idx := 0 },
              { active := true, idx := 1 }], activeIdx := some 1 }, none) := by
  have hl := vanillaTabBar_onKeydown_navigation
    { tabs := [{ active := false, idx := 0 }, { active := true, idx := 1 },
        { active := false, idx := 2 }]
      activeIdx := some 1 } "ArrowLeft"
    (fun j hj => by
      obtain rfl : 1 = j := Option.some_injective _ hj
      decide)
  have hr := vanillaTabBar_onKeydown_navigation
    { tabs := [{ active := false, idx := 0 }, { active := true, idx := 1 }]
      activeIdx := some 1 } "ArrowRight"
    (fun j hj => by
      obtain rfl : 1 = j := Option.some_injective _ hj
      decide)
  have he := vanillaTabBar_onKeydown_navigation
    { tabs := [{ active := false, idx := 0 }, { active := true, idx := 1 }]
      activeIdx := some 1 } "Enter"
    (fun j hj => by
      obtain rfl : 1 = j := Option.some_injective _ hj
      decide)
  have hleft := hl.1 rfl (by decide)
  refine ⟨?_, ?_, ?_, ?_⟩
  · rw [hleft]; decide
  · rw [hleft]; decide
  · exact hr.2.2.2.1 rfl (by decide)
  · exact he.2.2.2.2 (by decide) (by decide)

/-! ## `playground-file-editor`: `PlaygroundFileEditor`

The editor binds a `<playground-code-editor>` to the connected
`<playground-project>` by file name:

```ts
private get _files() { return this._project?.files ?? []; }
private get _currentFile() {
  return this.filename
    ? this._files.find((file) => file.name === this.filename)
    : undefined;
}
render() { ... .value=${live(this._currentFile?.content ?? '')}
  .type=${this._currentFile ? mimeTypeToTypeEnum(this._currentFile.contentType)
         : undefined}
  .readonly=${this.readonly || !this._currentFile}
  .diagnostics=${this._project?.diagnostics?.get(this._currentFile?.name ?? '')}
  ... }
private _onEdit() {
  const value = this._editor.value;
  if (this._currentFile) {
    this._currentFile.content = value!;
    this._project?.saveDebounced();
  }
}
```
`this.filename ? ... : undefined` tests JS truthiness, so an unset *or empty*
`filename` yields no current file. -/

structure ProjectFile : Type where
  name : String
  content : String
  contentType : Option String
  deriving DecidableEq

/-- The parts of `PlaygroundProject` the editor reads: its `files` array and
its `diagnostics` map, each possibly `undefined`. -/
structure PlaygroundProject : Type where
  files : Option (List ProjectFile)
  diagnostics : Option (List (String × List LspDiagnostic))
  deriving DecidableEq

structure PlaygroundFileEditor : Type where
  _project : Option PlaygroundProject
  filename : Option String
  deriving DecidableEq

def _files (e : PlaygroundFileEditor) : List ProjectFile :=
  (e._project.bind (fun proj => proj.files)).getD []

def _currentFile (e : PlaygroundFileEditor) : Option ProjectFile :=
  match e.filename with
  | some fn =>
    -- `this.filename ?`: the empty string is falsy in JS
    if fn = "" then none else ( _files e).find? (fun file => file.name == fn)
  | none => none

/-- The property values `render()` binds onto the code editor.  (`_files` is
`?? []`, an array, which is always truthy, so the editor branch is always
taken.) -/
structure CodeEditorProps : Type where
  value : String
  type : Option String
  readonly : Bool
  diagnostics : Option (List LspDiagnostic)
  deriving DecidableEq

def render (e : PlaygroundFileEditor) (readonlyProp : Bool) : CodeEditorProps :=
  { value := ((_currentFile e).map (fun f => f.content)).getD ""
    type :=
      match _currentFile e with
      | some f => mimeTypeToTypeEnum f.contentType
      | none => none
    readonly := readonlyProp || (_currentFile e).isNone
    diagnostics :=
      (e._project.bind (fun proj => proj.diagnostics)).bind
        (fun d => mapGet d (((_currentFile e).map (fun f => f.name)).getD "")) }

/-- `this._currentFile.content = value`: assign to the `content` of the first
file in the array whose name matches (the object `find` returned). -/
def setContentOfFirst : List ProjectFile → String → String → List ProjectFile
  | [], _, _ => []
  | f :: rest, fn, v =>
    if f.name == fn then { f with content := v } :: rest
    else f :: setContentOfFirst rest fn v

/-- `_onEdit` with the editor widget's current `value`; the boolean records
whether `saveDebounced()` was called on the project. -/
def _onEdit (e : PlaygroundFileEditor) (value : String) :
    PlaygroundFileEditor × Bool :=
  match _currentFile e with
  | some cf =>
    ({ e with
        _project := e._project.map (fun proj =>
          { proj with
              files := proj.files.map (fun fs => setContentOfFirst fs cf.name value) }) },
      true)
  | none => (e, false)

theorem find?_setContentOfFirst (l : List ProjectFile) (fn v : String)
    (cf : ProjectFile) (h : l.find? (fun file => file.name == fn) = some cf) :
    (setContentOfFirst l fn v).find? (fun file => file.name == fn)
      = some { cf with content := v } := by
  induction l with
  | nil => simp at h
  | cons f rest ih =>
    by_cases hf : f.name == fn
    · have hcf : f = cf := by simpa [List.find?_cons, hf] using h
      subst hcf
      simp [setContentOfFirst, hf, List.find?_cons]
    · have hrest : rest.find? (fun file => file.name == fn) = some cf := by
        simpa [List.find?_cons, hf] using h
      simp [setContentOfFirst, hf, List.find?_cons, ih hrest]

/-- Counterexample to C7 as stated: with a project that has no file named
`a.ts` but does carry diagnostics under the key `a.ts`, and `filename` set to
`a.ts`, the rendered diagnostics are `undefined` — the code looks the map up
under `this._currentFile?.name ?? ''`, i.e. under the empty-string key when
no file matches `filename` — while the project's diagnostics for that file
name are nonempty. -/
theorem playgroundFileEditor_diagnostics_counterexample :
    (render
        { _project := some
            { files := some [],
              diagnostics := some [("a.ts",
                [{ code := 1, source := "typescript", message := "err",
                   severity := 1,
                   range := { start := { line := 0, character := 0 },
                              «end» := { line := 0, character := 0 } } }])] },
          filename := some "a.ts" } false).diagnostics = none ∧
    mapGet [("a.ts",
        [({ code := 1, source := "typescript", message := "err", severity := 1,
            range := { start := { line := 0, character := 0 },
                       «end» := { line := 0, character := 0 } } } : LspDiagnostic)])]
      "a.ts"
      = some [{ code := 1, source := "typescript", message := "err",
                severity := 1,
                range := { start := { line := 0, character := 0 },
                           «end» := { line := 0, character := 0 } } }] ∧
    (render
        { _project := some
            { files := some [],
              diagnostics := some [("a.ts",
                [{ code := 1, source := "typescript", message := "err",
                   severity := 1,
                   range := { start := { line := 0, character := 0 },
                              «end» := { line := 0, character := 0 } } }])] },
          filename := some "a.ts" } false).diagnostics
      ≠ mapGet [("a.ts",
          [({ code := 1, source := "typescript", message := "err", severity := 1,
              range := { start := { line := 0, character := 0 },
                         «end» := { line := 0, character := 0 } } } : LspDiagnostic)])]
        "a.ts" := by
  refine ⟨by decide, by decide, by decide⟩

/-- C7 (amended): the code editor's value equals the content of the first
project file whose name equals `filename` (the empty string when `filename`
is unset or empty or no such file exists); its diagnostics are the project's
diagnostics looked up under the current file's name, falling back to the
empty-string key when there is no current file; on every edit event, if a
current file exists the editor's value is written into that file's content
and a debounced project save is requested; if no current file exists the
edit changes nothing. -/
theorem playgroundFileEditor_binding (e : PlaygroundFileEditor) (ro : Bool)
    (v : String) :
    (∀ fn cf, e.filename = some fn → fn ≠ "" →
      (_files e).find? (fun file => file.name == fn) = some cf →
      cf.name = fn ∧ (render e ro).value = cf.content) ∧
    (∀ fn, e.filename = some fn → fn ≠ "" →
      (_files e).find? (fun file => file.name == fn) = none →
      (render e ro).value = "") ∧
    ((e.filename = none ∨ e.filename = some "") → (render e ro).value = "") ∧
    (∀ cf, _currentFile e = some cf →
      (render e ro).diagnostics
        = (e._project.bind (fun proj => proj.diagnostics)).bind
            (fun d => mapGet d cf.name)) ∧
    (_currentFile e = none →
      (render e ro).diagnostics
        = (e._project.bind (fun proj => proj.diagnostics)).bind
            (fun d => mapGet d "")) ∧
    (∀ cf, _currentFile e = some cf →
      (_onEdit e v).2 = true ∧
      _currentFile (_onEdit e v).1 = some { cf with content := v }) ∧
    (_currentFile e = none → _onEdit e v = (e, false)) := by
  refine ⟨?_, ?_, ?_, ?_, ?_, ?_, ?_⟩
  · intro fn cf hfn hne hfind
    have hname : cf.name = fn := by
      simpa using List.find?_some hfind
    have hcur : _currentFile e = some cf := by
      simp [_currentFile, hfn, hne, hfind]
    exact ⟨hname, by simp [render, hcur]⟩
  · intro fn hfn hne hfind
    have hcur : _currentFile e = none := by
      simp [_currentFile, hfn, hne, hfind]
    simp [render, hcur]
  · rintro (h | h) <;> simp [render, _currentFile, h]
  · intro cf hcur
    simp [render, hcur]
  · intro hcur
    simp [render, hcur]
  · intro cf hcur
    obtain ⟨fn, hfn⟩ : ∃ fn, e.filename = some fn := by
      cases hf : e.filename with
      | none => rw [_currentFile, hf] at hcur; cases hcur
      | some fn => exact ⟨fn, rfl⟩
    have hne : fn ≠ "" := by
      intro h0
      rw [_currentFile, hfn, h0] at hcur
      simp at hcur
    have hfind : (_files e).find? (fun file => file.name == fn) = some cf := by
      rw [_currentFile, hfn] at hcur
      simpa [hne] using hcur
    have hname : cf.name = fn := by
      simpa using List.find?_some hfind
    cases hp : e._project with
    | none =>
      rw [_files, hp] at hfind
      simp at hfind
    | some p =>
      cases hpf : p.files with
      | none =>
        rw [_files, hp] at hfind
        simp [hpf] at hfind
      | some fs =>
        have hfs : _files e = fs := by rw [_files, hp]; simp [hpf]
        rw [hfs] at hfind
        refine ⟨by simp [_onEdit, hcur], ?_⟩
        have hproj' : (_onEdit e v).1._project
            = some { p with files := some (setContentOfFirst fs cf.name v) } := by
          simp [_onEdit, hcur, hp, hpf]
        have hfname : (_onEdit e v).1.filename = e.filename := by
          simp [_onEdit, hcur]
        have hfiles' : _files (_onEdit e v).1 = setContentOfFirst fs cf.name v := by
          rw [_files, hproj']
          rfl
        have hcur' : _currentFile (_onEdit e v).1
            = (setContentOfFirst fs cf.name v).find?
                (fun file => file.name == fn) := by
          rw [_currentFile, hfname, hfn]
          simp [hne, hfiles']
        rw [hcur', hname]
        have hres := find?_setContentOfFirst fs fn v cf hfind
        rw [hname] at hres
        exact hres
  · intro hcur
    simp [_onEdit, hcur]

/-- Concrete instance of `playgroundFileEditor_binding`: one project file
bound by name; an edit rewrites its content and requests a save. -/
theorem playgroundFileEditor_binding_witness :
    (render
        { _project := some
            { files := some
                [{ name := "a.ts", content := "let x;",
                   contentType := some "video/mp2t" }],
              diagnostics := some [("a.ts", [])] },
          filename := some "a.ts" } false).value = "let x;" ∧
    (render
        { _project := some
            { files := some
                [{ name := "a.ts", content := "let x;",
                   contentType := some "video/mp2t" }],
              diagnostics := some [("a.ts", [])] },
          filename := some "a.ts" } false).diagnostics = some [] ∧
    (_onEdit
        { _project := some
            { files := some
                [{ name := "a.ts", content := "let x;",
                   contentType := some "video/mp2t" }],
              diagnostics := some [("a.ts", [])] },
          filename := some "a.ts" } "let y;").2 = true ∧
    _currentFile (_onEdit
        { _project := some
            { files := some
                [{ name := "a.ts", content := "let x;",
                   contentType := some "video/mp2t" }],
              diagnostics := some [("a.ts", [])] },
          filename := some "a.ts" } "let y;").1
      = some { name := "a.ts", content := "let y;",
               contentType := some "video/mp2t" } := by
  have h := playgroundFileEditor_binding
    { _project := some
        { files := some
            [{ name := "a.ts", content := "let x;",
               contentType := some "video/mp2t" }],
          diagnostics := some [("a.ts", [])] },
      filename := some "a.ts" } false "let y;"
  have hval := h.1 "a.ts"
    { name := "a.ts", content := "let x;", contentType := some "video/mp2t" }
    rfl (by decide) (by decide)
  have hdiag := h.2.2.2.1
    { name := "a.ts", content := "let x;", contentType := some "video/mp2t" }
    (by decide)
  have hedit := h.2.2.2.2.2.1
    { name := "a.ts", content := "let x;", contentType := some "video/mp2t" }
    (by decide)
  refine ⟨hval.2, ?_, hedit.1, hedit.2⟩
  rw [hdiag]
  decide
end Playground
